import Mathlib

/-!
Verification of the daily-rainfall collection core of `scrape.py`:
the Fetcher (`get_rainfall_day`, its four-step CSV-text repair) and the
Collector (`get_rainfall`, the date walk with retry-on-connection-failure).

Text is modelled as `List Char`.  The Python string operations are
embedded with Python's semantics: `str.strip('\n')` removes every leading
and every trailing newline, and `str.replace(pat, rep)` performs one
left-to-right pass over non-overlapping occurrences, with scanning
resuming after each inserted replacement.
-/

namespace Wunder

/-- Model of `data_csv.strip('\n')` — scrape.py line 39.  Python `strip` removes all
leading and all trailing occurrences of the given character. -/
def stripNl (s : List Char) : List Char :=
  ((s.dropWhile (fun c => c = '\n')).reverse.dropWhile (fun c => c = '\n')).reverse

/-- Model of `data_csv.replace('\n<br>\n', '\n')` — scrape.py line 41.  One
left-to-right pass; after a replacement the scan resumes past the
inserted newline. -/
def replaceNlBrNl : List Char → List Char
  | c1 :: c2 :: c3 :: c4 :: c5 :: c6 :: rest =>
    if c1 = '\n' ∧ c2 = '<' ∧ c3 = 'b' ∧ c4 = 'r' ∧ c5 = '>' ∧ c6 = '\n' then
      '\n' :: replaceNlBrNl rest
    else
      c1 :: replaceNlBrNl (c2 :: c3 :: c4 :: c5 :: c6 :: rest)
  | l => l

/-- Model of `data_csv.replace('<br>\n', '\n')` — scrape.py line 43. -/
def replaceBrNl : List Char → List Char
  | c1 :: c2 :: c3 :: c4 :: c5 :: rest =>
    if c1 = '<' ∧ c2 = 'b' ∧ c3 = 'r' ∧ c4 = '>' ∧ c5 = '\n' then
      '\n' :: replaceBrNl rest
    else
      c1 :: replaceBrNl (c2 :: c3 :: c4 :: c5 :: rest)
  | l => l

/-- Model of `data_csv.replace(',\n', '\n')` — scrape.py line 45. -/
def replaceCommaNl : List Char → List Char
  | c1 :: c2 :: rest =>
    if c1 = ',' ∧ c2 = '\n' then
      '\n' :: replaceCommaNl rest
    else
      c1 :: replaceCommaNl (c2 :: rest)
  | l => l

/-- The whole repair pipeline of `get_rainfall_day` (scrape.py lines 37-45):
the four sequential reassignments of `data_csv`, in source order. -/
def repairText (s : List Char) : List Char :=
  let s1 := stripNl s
  let s2 := replaceNlBrNl s1
  let s3 := replaceBrNl s2
  let s4 := replaceCommaNl s3
  s4

example : repairText "\n<br>\nTime,A\n1,2,\nx\n".data = "\nTime,A\n1,2\nx".data := by
  decide

example : replaceCommaNl "a,,,\n".data = "a,,\n".data := by decide

example : stripNl "\n\nab\n".data = "ab".data := by decide

/-- A Daily table: the rows `get_rainfall_day` parsed for one date, in the
order the source returned them.  Rows are opaque. -/
abbrev Table := List String

/-- Outcome of one call of the Fetcher `get_rainfall_day` for one date: a parsed
Daily table, a `ConnectionError` (caught by the Collector, line 64), or a
parse failure from `pd.read_csv` (any other exception, not caught). -/
inductive FetchResult where
  | ok (t : Table)
  | connErr
  | parseErr
deriving DecidableEq

/-- An observable action of the Collector: one Fetcher call for a date,
one backoff sleep with its duration, or one file write. -/
inductive Event where
  | call (d : Int)
  | sleep (secs : Nat)
  | write (name : String) (content : Table)
deriving DecidableEq

/-- Constant `backoff_time = 10` — scrape.py line 55. -/
def backoff_time : Nat := 10

/-- The `while not done` retry loop for a single date (lines 59-68).
`f i` is what the Fetcher does on the i-th attempt for this date.  The
loop is unbounded in the source, so it is modelled with fuel: `none`
means the fuel ran out before the loop finished. -/
def dayLoop (d : Int) (f : Nat → FetchResult) : Nat → Option (List Event × Except Unit Table)
  | 0 => none
  | fuel + 1 =>
    match f 0 with
    | .ok t => some ([.call d], .ok t)
    | .parseErr => some ([.call d], .error ())
    | .connErr =>
      match dayLoop d (fun i => f (i + 1)) fuel with
      | none => none
      | some (ev, r) => some (.call d :: .sleep backoff_time :: ev, r)

/-- The `for date in dates` loop (lines 56-69): run the retry loop for
each date in order, accumulating the Daily tables; an uncaught exception
aborts the remaining dates. -/
def collectDays (f : Int → Nat → FetchResult) (fuel : Nat) : List Int → Option (List Event × Except Unit (List Table))
  | [] => some ([], .ok [])
  | d :: ds =>
    match dayLoop d (f d) fuel with
    | none => none
    | some (ev, .error e) => some (ev, .error e)
    | some (ev, .ok t) =>
      match collectDays f fuel ds with
      | none => none
      | some (ev2, .error e) => some (ev ++ ev2, .error e)
      | some (ev2, .ok ts) => some (ev ++ ev2, .ok (t :: ts))

/-- Model of `list(rrule.rrule(rrule.DAILY, dtstart=start_date, until=end_date))`
(line 54): the calendar walk at daily granularity, with dates modelled as
integer day numbers.  `dayWalk s n` is the `n` consecutive days from `s`. -/
def dayWalk (s : Int) : Nat → List Int
  | 0 => []
  | n + 1 => s :: dayWalk (s + 1) n

/-- The dates visited for the range `[s, e]`: every day from `s` to `e`
inclusive; empty when `s > e`. -/
def dateList (s e : Int) : List Int := dayWalk s (e + 1 - s).toNat

/-- Model of `"{}_rainfall_hourly.csv".format(station)` — scrape.py line 72. -/
def outputFile (station : String) : String := station ++ "_rainfall_hourly.csv"

/-- Model of `get_rainfall` (lines 52-73).  `pd.concat` of an empty list raises a
`ValueError`, modelled as `Except.error`; on success the concatenated
Range table is written to `outputFile station` and then returned. -/
def get_rainfall (station : String) (f : Int → Nat → FetchResult) (fuel : Nat) (start_date end_date : Int) : Option (List Event × Except Unit Table) :=
  match collectDays f fuel (dateList start_date end_date) with
  | none => none
  | some (ev, .error e) => some (ev, .error e)
  | some (ev, .ok ts) =>
    match ts with
    | [] => some (ev, .error ())
    | _ :: _ => some (ev ++ [.write (outputFile station) ts.flatten], .ok ts.flatten)

/-- The dates of the Fetcher calls recorded in a trace, in order. -/
def callsOf (tr : List Event) : List Int :=
  tr.filterMap (fun ev => match ev with | .call d => some d | _ => none)

/-- The file writes recorded in a trace, in order. -/
def writesOf (tr : List Event) : List (String × Table) :=
  tr.filterMap (fun ev => match ev with | .write n c => some (n, c) | _ => none)

/-- The trace of a date's retry loop that saw `k` connection failures and
then a success: `k` call/sleep pairs followed by the successful call. -/
def dayTrace (d : Int) (k : Nat) : List Event :=
  (List.replicate k [Event.call d, Event.sleep backoff_time]).flatten ++ [Event.call d]

example :
    dayLoop 5 (fun i => if i < 2 then .connErr else .ok ["r1"]) 3 =
      some (dayTrace 5 2, Except.ok ["r1"]) := by
  rfl

example : dateList 3 6 = [3, 4, 5, 6] := by decide

example : dateList 7 6 = [] := by decide

example :
    get_rainfall "S" (fun _ _ => .ok ["r"]) 1 3 4 =
      some ([Event.call 3, Event.call 4,
             Event.write "S_rainfall_hourly.csv" ["r", "r"]],
            Except.ok ["r", "r"]) := by
  rfl

/-- The first repair step as claims C4 and C5 word it: remove at most one
leading newline and leave the rest of the text, including any trailing
characters, unchanged. -/
def stripOneLeadingNl (s : List Char) : List Char :=
  match s with
  | '\n' :: rest => rest
  | _ => s

/-- The repair pipeline as claim C4 words it: rule (a) strips at most one
leading line-break character; rules (b), (c), (d) as in the source. -/
def repairTextClaimed (s : List Char) : List Char :=
  replaceCommaNl (replaceBrNl (replaceNlBrNl (stripOneLeadingNl s)))

/-- The four rewrite rules of the repair pipeline, in application order,
with rule (a) amended to Python strip semantics (all leading and all
trailing newlines removed). -/
def repairRules : List (List Char → List Char) :=
  [stripNl, replaceNlBrNl, replaceBrNl, replaceCommaNl]

theorem dropWhile_nl_replicate (m : Nat) (l : List Char) :
    List.dropWhile (fun c => c = '\n') (List.replicate m '\n' ++ l) =
      List.dropWhile (fun c => c = '\n') l := by
  induction m with
  | zero => rfl
  | succ k ih => simp [List.replicate_succ, List.dropWhile_cons, ih]

theorem dropWhile_nl_head_ne (l : List Char) (h : l.head? ≠ some '\n') :
    List.dropWhile (fun c => c = '\n') l = l := by
  cases l with
  | nil => rfl
  | cons a t =>
    have ha : ¬ a = '\n' := by simpa using h
    simp [List.dropWhile_cons, ha]

theorem stripNl_eq_of_clean (s : List Char) (h1 : s.head? ≠ some '\n')
    (h2 : s.getLast? ≠ some '\n') : stripNl s = s := by
  unfold stripNl
  rw [dropWhile_nl_head_ne s h1]
  rw [dropWhile_nl_head_ne s.reverse (by rwa [List.head?_reverse])]
  rw [List.reverse_reverse]

theorem replaceCommaNl_cons2 (c1 c2 : Char) (l : List Char) :
    replaceCommaNl (c1 :: c2 :: l) =
      if c1 = ',' ∧ c2 = '\n' then '\n' :: replaceCommaNl l
      else c1 :: replaceCommaNl (c2 :: l) := rfl

theorem replaceCommaNl_eq_of_no_occurrence (s : List Char)
    (h : ¬ List.IsInfix [',', '\n'] s) : replaceCommaNl s = s := by
  induction s using replaceCommaNl.induct with
  | case1 c1 c2 rest hif ih =>
    exact absurd ⟨[], rest, by simp [hif.1, hif.2]⟩ h
  | case2 c1 c2 rest hif ih =>
    rw [replaceCommaNl, if_neg hif,
      ih (fun hi => h (hi.trans (List.suffix_cons c1 (c2 :: rest)).isInfix))]
  | case3 l hl =>
    cases l with
    | nil => rfl
    | cons a t =>
      cases t with
      | nil => rfl
      | cons b u => exact (hl a b u rfl).elim

theorem replaceBrNl_eq_of_no_occurrence (s : List Char)
    (h : ¬ List.IsInfix ['<', 'b', 'r', '>', '\n'] s) : replaceBrNl s = s := by
  induction s using replaceBrNl.induct with
  | case1 c1 c2 c3 c4 c5 rest hif ih =>
    exact absurd ⟨[], rest,
      by simp [hif.1, hif.2.1, hif.2.2.1, hif.2.2.2.1, hif.2.2.2.2]⟩ h
  | case2 c1 c2 c3 c4 c5 rest hif ih =>
    rw [replaceBrNl, if_neg hif,
      ih (fun hi => h (hi.trans (List.suffix_cons c1 (c2 :: c3 :: c4 :: c5 :: rest)).isInfix))]
  | case3 l hl =>
    cases l with
    | nil => rfl
    | cons a t =>
      cases t with
      | nil => rfl
      | cons b u =>
        cases u with
        | nil => rfl
        | cons c v =>
          cases v with
          | nil => rfl
          | cons d w =>
            cases w with
            | nil => rfl
            | cons e x => exact (hl a b c d e x rfl).elim

theorem replaceNlBrNl_eq_of_no_occurrence (s : List Char)
    (h : ¬ List.IsInfix ['\n', '<', 'b', 'r', '>', '\n'] s) : replaceNlBrNl s = s := by
  induction s using replaceNlBrNl.induct with
  | case1 c1 c2 c3 c4 c5 c6 rest hif ih =>
    exact absurd ⟨[], rest,
      by simp [hif.1, hif.2.1, hif.2.2.1, hif.2.2.2.1, hif.2.2.2.2.1, hif.2.2.2.2.2]⟩ h
  | case2 c1 c2 c3 c4 c5 c6 rest hif ih =>
    rw [replaceNlBrNl, if_neg hif,
      ih (fun hi =>
        h (hi.trans (List.suffix_cons c1 (c2 :: c3 :: c4 :: c5 :: c6 :: rest)).isInfix))]
  | case3 l hl =>
    cases l with
    | nil => rfl
    | cons a t =>
      cases t with
      | nil => rfl
      | cons b u =>
        cases u with
        | nil => rfl
        | cons c v =>
          cases v with
          | nil => rfl
          | cons d w =>
            cases w with
            | nil => rfl
            | cons e x =>
              cases x with
              | nil => rfl
              | cons g y => exact (hl a b c d e g y rfl).elim

theorem brnl_occurs_of_nlbrnl_occurs (s : List Char)
    (h : List.IsInfix ['\n', '<', 'b', 'r', '>', '\n'] s) :
    List.IsInfix ['<', 'b', 'r', '>', '\n'] s :=
  List.IsInfix.trans ⟨['\n'], [], by simp⟩ h

/-- Claim C4, counterexample: on input `"\n\nx"` the code's pipeline
(whose first step is Python `strip`) differs from the claimed pipeline
whose rule (a) removes only one leading line-break character. -/
theorem repair_four_rules_cx :
    repairText ['\n', '\n', 'x'] ≠ repairTextClaimed ['\n', '\n', 'x'] := by decide

/-- **C4** (amended): the Fetcher's repair applies exactly four rewrite
rules in this exact order: (a) strip every leading and every trailing
line-break character; (b) replace newline + line-break tag + newline by a
newline; (c) replace remaining line-break tag + newline by a newline;
(d) replace separator comma + newline by the newline. -/
theorem repair_four_rules :
    repairRules.length = 4 ∧
    ∀ s : List Char, repairText s = repairRules.foldl (fun acc r => r acc) s :=
  ⟨rfl, fun _ => rfl⟩

/-- Claim C5, counterexample: the first repair step is Python
`strip('\n')`, which also removes the trailing newline of `"a\n"`;
the claimed step leaves it unchanged. -/
theorem strip_step_cx :
    stripNl ['a', '\n'] ≠ stripOneLeadingNl ['a', '\n'] := by decide

/-- **C5** (amended): the first repair step removes every leading and
every trailing line-break character and leaves the interior of the text
unchanged. -/
theorem strip_step_amended (m n : Nat) (mid : List Char)
    (h1 : mid.head? ≠ some '\n') (h2 : mid.getLast? ≠ some '\n') :
    stripNl (List.replicate m '\n' ++ mid ++ List.replicate n '\n') = mid := by
  unfold stripNl
  rw [List.append_assoc, dropWhile_nl_replicate]
  cases mid with
  | nil =>
    rw [List.nil_append,
      show List.replicate n '\n' = List.replicate n '\n' ++ ([] : List Char) by simp,
      dropWhile_nl_replicate]
    rfl
  | cons a t =>
    have ha : (a :: t ++ List.replicate n '\n').head? ≠ some '\n' := by
      simpa using h1
    rw [dropWhile_nl_head_ne _ ha, List.reverse_append, List.reverse_replicate,
      dropWhile_nl_replicate,
      dropWhile_nl_head_ne _ (by rw [List.head?_reverse]; exact h2),
      List.reverse_reverse]

/-- Witness for the amended C5 theorem at a concrete input. -/
theorem strip_step_amended_witness :
    (['a', 'b'] : List Char).head? ≠ some '\n' ∧
    (['a', 'b'] : List Char).getLast? ≠ some '\n' ∧
    stripNl (List.replicate 1 '\n' ++ ['a', 'b'] ++ List.replicate 2 '\n') = ['a', 'b'] :=
  ⟨by decide, by decide, strip_step_amended 1 2 ['a', 'b'] (by decide) (by decide)⟩

/-- Claim C6, counterexample: `"b\n"` has no leading line-break markup and
no doubled separator, yet the pipeline changes it (the trailing newline is
stripped). -/
theorem repair_clean_noop_cx :
    (['b', '\n'] : List Char).head? ≠ some '\n' ∧
    ¬ List.IsInfix ['\n', '<', 'b', 'r', '>', '\n'] ['b', '\n'] ∧
    repairText ['b', '\n'] ≠ ['b', '\n'] := by decide

/-- **C6** (amended): the repair pipeline is a no-op on clean text, where
clean means: no leading and no trailing newline, no line-break tag
followed by a newline, and no separator comma followed by a newline. -/
theorem repair_clean_noop (s : List Char)
    (h1 : s.head? ≠ some '\n') (h2 : s.getLast? ≠ some '\n')
    (h3 : ¬ List.IsInfix ['<', 'b', 'r', '>', '\n'] s)
    (h4 : ¬ List.IsInfix [',', '\n'] s) :
    repairText s = s := by
  show replaceCommaNl (replaceBrNl (replaceNlBrNl (stripNl s))) = s
  rw [stripNl_eq_of_clean s h1 h2,
    replaceNlBrNl_eq_of_no_occurrence s (fun hi => h3 (brnl_occurs_of_nlbrnl_occurs s hi)),
    replaceBrNl_eq_of_no_occurrence s h3,
    replaceCommaNl_eq_of_no_occurrence s h4]

/-- Witness for the amended C6 theorem at a concrete input. -/
theorem repair_clean_noop_witness :
    repairText "Time,A\n1,2".data = "Time,A\n1,2".data :=
  repair_clean_noop "Time,A\n1,2".data (by decide) (by decide) (by decide) (by decide)

theorem replaceCommaNl_append (a b : List Char) (hb : b.head? ≠ some '\n') :
    replaceCommaNl (a ++ b) = replaceCommaNl a ++ replaceCommaNl b := by
  induction a using replaceCommaNl.induct with
  | case1 c1 c2 rest hif ih =>
    obtain ⟨rfl, rfl⟩ := hif
    rw [List.cons_append, List.cons_append, replaceCommaNl_cons2, if_pos ⟨rfl, rfl⟩,
      replaceCommaNl_cons2, if_pos ⟨rfl, rfl⟩, ih]
    rfl
  | case2 c1 c2 rest hif ih =>
    rw [List.cons_append, List.cons_append, replaceCommaNl_cons2, if_neg hif,
      replaceCommaNl_cons2, if_neg hif, ← List.cons_append, ih]
    rfl
  | case3 l hl =>
    cases l with
    | nil => rfl
    | cons c1 t =>
      cases t with
      | nil =>
        cases b with
        | nil => rfl
        | cons b1 b2 =>
          have hb1 : ¬ b1 = '\n' := by simpa using hb
          rw [List.cons_append, List.nil_append, replaceCommaNl_cons2,
            if_neg (fun hc => hb1 hc.2)]
          rfl
      | cons c2 u => exact (hl c1 c2 u rfl).elim

theorem replaceCommaNl_comma_run (m : Nat) (rest : List Char) :
    replaceCommaNl (List.replicate (m + 1) ',' ++ '\n' :: rest) =
      List.replicate m ',' ++ '\n' :: replaceCommaNl rest := by
  have hsplit : List.replicate (m + 1) ',' ++ '\n' :: rest =
      List.replicate m ',' ++ (',' :: '\n' :: rest) := by
    rw [List.replicate_succ']
    simp
  have hno : ¬ List.IsInfix [',', '\n'] (List.replicate m ',') := by
    intro hinf
    have hnmem : '\n' ∈ List.replicate m ',' := hinf.subset (by simp)
    simp [List.mem_replicate] at hnmem
  rw [hsplit, replaceCommaNl_append _ _ (by simp),
    replaceCommaNl_eq_of_no_occurrence _ hno, replaceCommaNl_cons2, if_pos ⟨rfl, rfl⟩]

/-- **C10**: the trailing-separator rewrite is a single left-to-right
pass: a line ending in `n ≥ 2` separator commas before its newline still
ends in `n - 1` commas afterwards, with the rest of the text rewritten by
the same single pass. -/
theorem trailing_comma_single_pass (pre rest : List Char) (n : Nat) (hn : 2 ≤ n) :
    replaceCommaNl (pre ++ (List.replicate n ',' ++ '\n' :: rest)) =
      replaceCommaNl pre ++ (List.replicate (n - 1) ',' ++ '\n' :: replaceCommaNl rest) := by
  obtain ⟨m, rfl⟩ : ∃ m, n = m + 1 + 1 := ⟨n - 2, by omega⟩
  rw [replaceCommaNl_append pre _ (by simp [List.replicate_succ]),
    replaceCommaNl_comma_run]
  simp

/-- Witness for the C10 theorem at a concrete input:
`"a,,,\nb"` becomes `"a,,\nb"`. -/
theorem trailing_comma_single_pass_witness :
    replaceCommaNl (['a'] ++ (List.replicate 3 ',' ++ '\n' :: ['b'])) =
      replaceCommaNl ['a'] ++ (List.replicate (3 - 1) ',' ++ '\n' :: replaceCommaNl ['b']) :=
  trailing_comma_single_pass ['a'] ['b'] 3 (by decide)

theorem dayTrace_succ (d : Int) (k : Nat) :
    dayTrace d (k + 1) = Event.call d :: Event.sleep backoff_time :: dayTrace d k := by
  simp [dayTrace, List.replicate_succ]

theorem dayTrace_count_call (d : Int) (k : Nat) :
    (dayTrace d k).count (Event.call d) = k + 1 := by
  induction k with
  | zero => simp [dayTrace]
  | succ k ih => simp [dayTrace_succ, ih]

theorem dayTrace_count_sleep (d : Int) (k : Nat) :
    (dayTrace d k).count (Event.sleep backoff_time) = k := by
  induction k with
  | zero => simp [dayTrace]
  | succ k ih => simp [dayTrace_succ, ih]

theorem dayLoop_retry (d : Int) (f : Nat → FetchResult) (k : Nat) (t : Table) (fuel : Nat)
    (hconn : ∀ i, i < k → f i = FetchResult.connErr)
    (hok : f k = FetchResult.ok t) (hfuel : k < fuel) :
    dayLoop d f fuel = some (dayTrace d k, Except.ok t) := by
  induction k generalizing f fuel with
  | zero =>
    obtain ⟨fl, rfl⟩ : ∃ fl, fuel = fl + 1 := ⟨fuel - 1, by omega⟩
    simp [dayLoop, hok, dayTrace]
  | succ k ih =>
    obtain ⟨fl, rfl⟩ : ∃ fl, fuel = fl + 1 := ⟨fuel - 1, by omega⟩
    have h0 : f 0 = FetchResult.connErr := hconn 0 (Nat.succ_pos k)
    have hrec : dayLoop d (fun i => f (i + 1)) fl = some (dayTrace d k, Except.ok t) :=
      ih (fun i => f (i + 1)) fl (fun i hi => hconn (i + 1) (by omega)) hok (by omega)
    simp [dayLoop, h0, hrec, dayTrace_succ]

/-- **C1**: if the Fetcher raises a connection failure exactly `k` times
and then succeeds for a date, the Collector calls the Fetcher exactly
`k + 1` times for that date and sleeps exactly `k` times, each sleep the
default 10-second backoff, strictly between the attempts, and then moves
on to the next date with the fetched Daily table appended. -/
theorem retry_backoff (F : Int → Nat → FetchResult) (d : Int) (k : Nat) (t : Table)
    (fuel : Nat)
    (hconn : ∀ i, i < k → F d i = FetchResult.connErr)
    (hok : F d k = FetchResult.ok t) (hfuel : k < fuel) :
    dayLoop d (F d) fuel = some (dayTrace d k, Except.ok t) ∧
    (dayTrace d k).count (Event.call d) = k + 1 ∧
    (dayTrace d k).count (Event.sleep backoff_time) = k ∧
    backoff_time = 10 ∧
    (∀ ds ev2 r, collectDays F fuel ds = some (ev2, r) →
      collectDays F fuel (d :: ds) =
        some (dayTrace d k ++ ev2,
          match r with
          | Except.ok ts => Except.ok (t :: ts)
          | Except.error e => Except.error e)) := by
  have hdl := dayLoop_retry d (F d) k t fuel hconn hok hfuel
  refine ⟨hdl, dayTrace_count_call d k, dayTrace_count_sleep d k, rfl, ?_⟩
  intro ds ev2 r hcd
  cases r with
  | ok ts => simp [collectDays, hdl, hcd]
  | error err => simp [collectDays, hdl, hcd]

/-- Witness for C1 at a concrete input: two connection failures, then
success, give three calls and two backoff sleeps. -/
theorem retry_backoff_witness :
    dayLoop 0 (fun i => if i < 2 then FetchResult.connErr else FetchResult.ok ["r"]) 3 =
      some (dayTrace 0 2, Except.ok ["r"]) ∧
    (dayTrace 0 2).count (Event.call 0) = 3 ∧
    (dayTrace 0 2).count (Event.sleep backoff_time) = 2 :=
  have h := retry_backoff
    (fun _ i => if i < 2 then FetchResult.connErr else FetchResult.ok ["r"])
    0 2 ["r"] 3 (by intro i hi; interval_cases i <;> rfl) (by rfl) (by omega)
  ⟨h.1, h.2.1, h.2.2.1⟩

/-- **C9**: when `start_date` is strictly after `end_date`, the Collector
enumerates zero dates and `pd.concat` of the empty list of Daily tables
raises: the run errors with an empty trace — no Fetcher call is made, no
output file is written, and no empty Range table is returned. -/
theorem empty_range_errors (station : String) (F : Int → Nat → FetchResult) (fuel : Nat)
    (s e : Int) (h : e < s) :
    dateList s e = [] ∧
    get_rainfall station F fuel s e = some ([], Except.error ()) := by
  have hd : dateList s e = [] := by
    unfold dateList
    have hz : (e + 1 - s).toNat = 0 := by omega
    rw [hz]
    rfl
  exact ⟨hd, by simp [get_rainfall, hd, collectDays]⟩

/-- Witness for C9 at a concrete input: the range from day 5 to day 3. -/
theorem empty_range_errors_witness :
    dateList 5 3 = [] ∧
    get_rainfall "S" (fun _ _ => FetchResult.ok ["r"]) 1 5 3 = some ([], Except.error ()) :=
  empty_range_errors "S" (fun _ _ => FetchResult.ok ["r"]) 1 5 3 (by decide)

theorem dayWalk_length (s : Int) (n : Nat) : (dayWalk s n).length = n := by
  induction n generalizing s with
  | zero => rfl
  | succ k ih => simp [dayWalk, ih]

theorem dayWalk_headOpt (s : Int) (k : Nat) : (dayWalk s (k + 1)).head? = some s := rfl

theorem dayWalk_chain (s : Int) (n : Nat) :
    List.Chain' (fun a b => b = a + 1) (dayWalk s n) := by
  induction n generalizing s with
  | zero => simp [dayWalk]
  | succ k ih =>
    rw [dayWalk, List.chain'_cons']
    refine ⟨?_, ih (s + 1)⟩
    intro h hh
    cases k with
    | zero => simp [dayWalk] at hh
    | succ k2 =>
      rw [dayWalk_headOpt] at hh
      exact (Option.some.inj hh).symm

theorem dayWalk_mem_ge (s : Int) (n : Nat) : ∀ x ∈ dayWalk s n, s ≤ x := by
  induction n generalizing s with
  | zero => simp [dayWalk]
  | succ k ih =>
    intro x hx
    rw [dayWalk] at hx
    rcases List.mem_cons.mp hx with rfl | hx
    · exact le_refl x
    · have := ih (s + 1) x hx
      omega

theorem dayWalk_nodup (s : Int) (n : Nat) : (dayWalk s n).Nodup := by
  induction n generalizing s with
  | zero => simp [dayWalk]
  | succ k ih =>
    rw [dayWalk]
    refine List.nodup_cons.mpr ⟨?_, ih (s + 1)⟩
    intro hmem
    have := dayWalk_mem_ge (s + 1) k s hmem
    omega

theorem dateList_ne_nil (s e : Int) (hse : s ≤ e) : dateList s e ≠ [] := by
  obtain ⟨n, hn⟩ : ∃ n, (e + 1 - s).toNat = n + 1 := ⟨(e - s).toNat, by omega⟩
  unfold dateList
  rw [hn, dayWalk]
  exact List.cons_ne_nil _ _

theorem dayLoop_ok0 (d : Int) (f : Nat → FetchResult) (t : Table) (fuel : Nat)
    (hf : f 0 = FetchResult.ok t) (hfuel : 1 ≤ fuel) :
    dayLoop d f fuel = some ([Event.call d], Except.ok t) := by
  obtain ⟨fl, rfl⟩ : ∃ fl, fuel = fl + 1 := ⟨fuel - 1, by omega⟩
  simp [dayLoop, hf]

theorem collectDays_all_ok (F : Int → Nat → FetchResult) (g : Int → Table) (fuel : Nat)
    (ds : List Int)
    (h : ∀ d ∈ ds, dayLoop d (F d) fuel = some ([Event.call d], Except.ok (g d))) :
    collectDays F fuel ds = some (ds.map Event.call, Except.ok (ds.map g)) := by
  induction ds with
  | nil => rfl
  | cons d ds ih =>
    have hd := h d (List.mem_cons_self d ds)
    have hih := ih (fun d' hd' => h d' (List.mem_cons_of_mem d hd'))
    simp [collectDays, hd, hih]

theorem collectDays_all_ok_gen (F : Int → Nat → FetchResult) (g : Int → Table) (fuel : Nat)
    (ds : List Int)
    (h : ∀ d ∈ ds, ∃ ev, dayLoop d (F d) fuel = some (ev, Except.ok (g d))) :
    ∃ ev, collectDays F fuel ds = some (ev, Except.ok (ds.map g)) := by
  induction ds with
  | nil => exact ⟨[], rfl⟩
  | cons d ds ih =>
    obtain ⟨evd, hevd⟩ := h d (List.mem_cons_self d ds)
    obtain ⟨ev2, hev2⟩ := ih (fun d' hd' => h d' (List.mem_cons_of_mem d hd'))
    exact ⟨evd ++ ev2, by simp [collectDays, hevd, hev2]⟩

theorem callsOf_append (a b : List Event) : callsOf (a ++ b) = callsOf a ++ callsOf b := by
  simp [callsOf]

theorem callsOf_map_call (ds : List Int) : callsOf (ds.map Event.call) = ds := by
  induction ds with
  | nil => rfl
  | cons d ds ih => simp [callsOf, List.filterMap_cons] at ih ⊢; exact ih

theorem get_rainfall_ok (station : String) (F : Int → Nat → FetchResult) (fuel : Nat)
    (s e : Int) (ev : List Event) (ts : List Table)
    (h : collectDays F fuel (dateList s e) = some (ev, Except.ok ts)) (hne : ts ≠ []) :
    get_rainfall station F fuel s e =
      some (ev ++ [Event.write (outputFile station) ts.flatten], Except.ok ts.flatten) := by
  unfold get_rainfall
  rw [h]
  obtain ⟨t0, ts0, rfl⟩ := List.exists_cons_of_ne_nil hne
  rfl

/-- **C3**: with a Fetcher that succeeds immediately, the Collector calls
the Fetcher on exactly `end - start + 1` calendar dates, each exactly
once, in ascending order with consecutive dates one day apart. -/
theorem visits_each_date_once (station : String) (F : Int → Nat → FetchResult)
    (g : Int → Table) (fuel : Nat) (s e : Int)
    (hF : ∀ d, F d 0 = FetchResult.ok (g d)) (hfuel : 1 ≤ fuel) (hse : s ≤ e) :
    ∃ ev r, get_rainfall station F fuel s e = some (ev, r) ∧
      callsOf ev = dateList s e ∧
      ((dateList s e).length : Int) = e - s + 1 ∧
      List.Chain' (fun a b => b = a + 1) (dateList s e) ∧
      (dateList s e).Nodup := by
  have hall : ∀ d ∈ dateList s e,
      dayLoop d (F d) fuel = some ([Event.call d], Except.ok (g d)) :=
    fun d _ => dayLoop_ok0 d (F d) (g d) fuel (hF d) hfuel
  have hcd := collectDays_all_ok F g fuel (dateList s e) hall
  have htne : (dateList s e).map g ≠ [] :=
    fun hcontra => dateList_ne_nil s e hse (List.map_eq_nil_iff.mp hcontra)
  refine ⟨(dateList s e).map Event.call ++
      [Event.write (outputFile station) (((dateList s e).map g).flatten)],
    Except.ok (((dateList s e).map g).flatten),
    get_rainfall_ok station F fuel s e _ _ hcd htne, ?_, ?_, ?_, ?_⟩
  · rw [callsOf_append, callsOf_map_call]
    simp [callsOf]
  · unfold dateList
    rw [dayWalk_length]
    omega
  · exact dayWalk_chain s _
  · exact dayWalk_nodup s _

/-- Witness for C3 at a concrete input: the two-day range from day 0 to
day 1. -/
theorem visits_each_date_once_witness :
    ∃ ev r, get_rainfall "S" (fun _ _ => FetchResult.ok ["r"]) 1 0 1 = some (ev, r) ∧
      callsOf ev = dateList 0 1 ∧
      ((dateList 0 1).length : Int) = 1 - 0 + 1 ∧
      List.Chain' (fun a b => b = a + 1) (dateList 0 1) ∧
      (dateList 0 1).Nodup :=
  visits_each_date_once "S" (fun _ _ => FetchResult.ok ["r"]) (fun _ => ["r"]) 1 0 1
    (fun _ => rfl) (by omega) (by omega)

/-- **C7**: on a successful collection the Range table is exactly the
concatenation of the per-date Daily tables in the requested ascending
date order, with each Daily table's internal row order preserved. -/
theorem range_table_is_ordered_concat (station : String) (F : Int → Nat → FetchResult)
    (g : Int → Table) (fuel : Nat) (s e : Int)
    (h : ∀ d ∈ dateList s e, ∃ ev, dayLoop d (F d) fuel = some (ev, Except.ok (g d)))
    (hse : s ≤ e) :
    ∃ ev, get_rainfall station F fuel s e =
      some (ev, Except.ok (((dateList s e).map g).flatten)) := by
  obtain ⟨ev, hev⟩ := collectDays_all_ok_gen F g fuel (dateList s e) h
  have htne : (dateList s e).map g ≠ [] :=
    fun hcontra => dateList_ne_nil s e hse (List.map_eq_nil_iff.mp hcontra)
  exact ⟨ev ++ [Event.write (outputFile station) (((dateList s e).map g).flatten)],
    get_rainfall_ok station F fuel s e _ _ hev htne⟩

/-- Witness for C7 at a concrete input: day 0 needs one retry, day 1
succeeds immediately; the Range table is the two Daily tables in order. -/
theorem range_table_is_ordered_concat_witness :
    ∃ ev, get_rainfall "S"
        (fun d i => if d = 0 ∧ i = 0 then FetchResult.connErr else FetchResult.ok ["r"])
        2 0 1 =
      some (ev, Except.ok (((dateList 0 1).map (fun _ => (["r"] : Table))).flatten)) :=
  range_table_is_ordered_concat "S"
    (fun d i => if d = 0 ∧ i = 0 then FetchResult.connErr else FetchResult.ok ["r"])
    (fun _ => ["r"]) 2 0 1
    (by
      intro d hd
      have hlist : dateList 0 1 = [0, 1] := by decide
      rw [hlist] at hd
      rcases List.mem_cons.mp hd with rfl | hd
      · exact ⟨[Event.call 0, Event.sleep backoff_time, Event.call 0], rfl⟩
      rcases List.mem_cons.mp hd with rfl | hd
      · exact ⟨[Event.call 1], rfl⟩
      · exact absurd hd (List.not_mem_nil d))
    (by omega)

/-- **C8**: after all dates succeed, the Collector writes the full Range
table to a file named exactly `{station}_rainfall_hourly.csv` and then
returns that same table to the caller. -/
theorem persists_then_returns (station : String) (F : Int → Nat → FetchResult)
    (fuel : Nat) (s e : Int) (ev : List Event) (ts : List Table)
    (h : collectDays F fuel (dateList s e) = some (ev, Except.ok ts)) (hne : ts ≠ []) :
    get_rainfall station F fuel s e =
      some (ev ++ [Event.write (station ++ "_rainfall_hourly.csv") ts.flatten],
        Except.ok ts.flatten) := by
  rw [get_rainfall_ok station F fuel s e ev ts h hne]
  rfl

/-- Witness for C8 at a concrete input: the one-day range at day 0 for
station KCASANFR1. -/
theorem persists_then_returns_witness :
    get_rainfall "KCASANFR1" (fun _ _ => FetchResult.ok ["r"]) 1 0 0 =
      some ([Event.call 0] ++
          [Event.write ("KCASANFR1" ++ "_rainfall_hourly.csv")
            ([["r"]] : List Table).flatten],
        Except.ok (([["r"]] : List Table).flatten)) :=
  persists_then_returns "KCASANFR1" (fun _ _ => FetchResult.ok ["r"]) 1 0 0
    [Event.call 0] [["r"]] (by rfl) (by decide)

theorem dayLoop_events (d : Int) (f : Nat → FetchResult) (fuel : Nat) (ev : List Event)
    (r : Except Unit Table) (h : dayLoop d f fuel = some (ev, r)) :
    ∀ x ∈ ev, x = Event.call d ∨ ∃ nsecs, x = Event.sleep nsecs := by
  induction fuel generalizing f ev r with
  | zero => simp [dayLoop] at h
  | succ fl ih =>
    rw [dayLoop] at h
    cases hf : f 0 with
    | ok t =>
      rw [hf] at h
      obtain ⟨rfl, rfl⟩ : [Event.call d] = ev ∧ Except.ok t = r := by simpa using h
      intro x hx
      rcases List.mem_singleton.mp hx with rfl
      exact Or.inl rfl
    | parseErr =>
      rw [hf] at h
      obtain ⟨rfl, rfl⟩ : [Event.call d] = ev ∧ Except.error () = r := by simpa using h
      intro x hx
      rcases List.mem_singleton.mp hx with rfl
      exact Or.inl rfl
    | connErr =>
      rw [hf] at h
      cases hdl : dayLoop d (fun i => f (i + 1)) fl with
      | none => rw [hdl] at h; simp at h
      | some pr =>
        obtain ⟨ev', r'⟩ := pr
        rw [hdl] at h
        obtain ⟨rfl, rfl⟩ :
            Event.call d :: Event.sleep backoff_time :: ev' = ev ∧ r' = r := by
          simpa using h
        intro x hx
        rcases List.mem_cons.mp hx with rfl | hx
        · exact Or.inl rfl
        rcases List.mem_cons.mp hx with rfl | hx
        · exact Or.inr ⟨backoff_time, rfl⟩
        · exact ih (fun i => f (i + 1)) ev' r' hdl x hx

theorem collectDays_error_after_prefix (F : Int → Nat → FetchResult) (fuel : Nat)
    (ds1 : List Int) (d : Int) (ds2 : List Int)
    (h1 : ∀ d' ∈ ds1, ∃ ev t, dayLoop d' (F d') fuel = some (ev, Except.ok t))
    (evd : List Event)
    (h2 : dayLoop d (F d) fuel = some (evd, Except.error ())) :
    ∃ ev, collectDays F fuel (ds1 ++ d :: ds2) = some (ev, Except.error ()) ∧
      ∀ x ∈ ev, (∃ d', d' ∈ ds1 ++ [d] ∧ x = Event.call d') ∨
        ∃ nsecs, x = Event.sleep nsecs := by
  induction ds1 with
  | nil =>
    refine ⟨evd, by simp [collectDays, h2], ?_⟩
    intro x hx
    rcases dayLoop_events d (F d) fuel evd (Except.error ()) h2 x hx with rfl | hsleep
    · exact Or.inl ⟨d, by simp, rfl⟩
    · exact Or.inr hsleep
  | cons a ds1 ih =>
    obtain ⟨eva, ta, ha⟩ := h1 a (List.mem_cons_self a ds1)
    obtain ⟨ev', hev', hmem⟩ := ih (fun d' hd' => h1 d' (List.mem_cons_of_mem a hd'))
    refine ⟨eva ++ ev', by simp [collectDays, ha, hev'], ?_⟩
    intro x hx
    rcases List.mem_append.mp hx with hx | hx
    · rcases dayLoop_events a (F a) fuel eva (Except.ok ta) ha x hx with rfl | hsleep
      · exact Or.inl ⟨a, by simp, rfl⟩
      · exact Or.inr hsleep
    · rcases hmem x hx with ⟨d', hd', rfl⟩ | hsleep
      · refine Or.inl ⟨d', ?_, rfl⟩
        rcases List.mem_append.mp hd' with h' | h'
        · exact List.mem_append.mpr (Or.inl (List.mem_cons_of_mem a h'))
        · exact List.mem_append.mpr (Or.inr h')
      · exact Or.inr hsleep

/-- **C2**: if the Fetcher raises a parse failure on some date (after any
number of retried connection failures on earlier dates), the Collector
propagates the failure: the run returns no Range table, writes no output
file, and attempts no date after the failing one. -/
theorem parse_failure_aborts (station : String) (F : Int → Nat → FetchResult) (fuel : Nat)
    (s e : Int) (ds1 : List Int) (d : Int) (ds2 : List Int)
    (hdates : dateList s e = ds1 ++ d :: ds2)
    (h1 : ∀ d' ∈ ds1, ∃ ev t, dayLoop d' (F d') fuel = some (ev, Except.ok t))
    (evd : List Event)
    (h2 : dayLoop d (F d) fuel = some (evd, Except.error ())) :
    ∃ ev, get_rainfall station F fuel s e = some (ev, Except.error ()) ∧
      writesOf ev = [] ∧
      ∀ x ∈ callsOf ev, x ∈ ds1 ++ [d] := by
  obtain ⟨ev, hev, hmem⟩ := collectDays_error_after_prefix F fuel ds1 d ds2 h1 evd h2
  refine ⟨ev, ?_, ?_, ?_⟩
  · unfold get_rainfall
    rw [hdates, hev]
  · refine List.filterMap_eq_nil_iff.mpr ?_
    intro x hx
    rcases hmem x hx with ⟨d', _, rfl⟩ | ⟨nsecs, rfl⟩ <;> rfl
  · intro x hx
    simp only [callsOf, List.mem_filterMap] at hx
    obtain ⟨y, hy, hfy⟩ := hx
    rcases hmem y hy with ⟨d', hd', rfl⟩ | ⟨nsecs, rfl⟩
    · simp only [Option.some.injEq] at hfy
      rwa [← hfy]
    · simp at hfy

/-- Witness for C2 at a concrete input: date 1 of the range 0..2 raises a
parse failure; only dates 0 and 1 are attempted and nothing is written. -/
theorem parse_failure_aborts_witness :
    ∃ ev, get_rainfall "S"
        (fun d _ => if d = 1 then FetchResult.parseErr else FetchResult.ok ["r"]) 1 0 2 =
      some (ev, Except.error ()) ∧
      writesOf ev = [] ∧
      ∀ x ∈ callsOf ev, x ∈ ([0] : List Int) ++ [1] :=
  parse_failure_aborts "S"
    (fun d _ => if d = 1 then FetchResult.parseErr else FetchResult.ok ["r"])
    1 0 2 [0] 1 [2] (by decide)
    (by
      intro d' hd'
      have hd0 : d' = 0 := by simpa using hd'
      subst hd0
      exact ⟨[Event.call 0], ["r"], rfl⟩)
    [Event.call 1] rfl

end Wunder
